import Mathlib

/-
Verification of the BlockSuite build/pack/release orchestration scripts.

The development shallowly embeds the pure decision logic of
`src/scripts/build-blocksuite.ts` (the canonical build/release script) and of
the comparator script: the package-name-to-filename transform, the workspace
enumeration filter, the pack-step target resolution and output-directory
bookkeeping, the release lookup/creation fallback, the release-asset
reconciliation loop, the overrides generation, the publish-config patch step,
and the comparator's diff decision.  External tools (git, yarn, npm, tar,
diff, the GitHub HTTP API) are modelled by their observable inputs/outputs;
every step the scripts delegate to them is recorded as an explicit event so
that ordering claims can be stated.
-/

namespace BlocksuiteBuild

/-! ## String primitives modelling the JavaScript operations used by the scripts -/

/-- Model of JavaScript `String.prototype.replace(pat, repl)` specialised to the
single-character search patterns used in the scripts (`"@"` and `"/"`): only the
first occurrence of the character `c` is replaced, by the character list `r`. -/
def replaceFirstChar (r : List Char) (c : Char) : List Char → List Char
  | [] => []
  | x :: xs => if x = c then r ++ xs else x :: replaceFirstChar r c xs

/-- The character-level content of `name.replace("@", "").replace("/", "-")`,
the transform applied to a workspace package name by the scripts. -/
def stripScopeChars (l : List Char) : List Char :=
  replaceFirstChar ['-'] '/' (replaceFirstChar [] '@' l)

/-- `packBlocksuite` (build-blocksuite.ts line 470):
`` `${ws.name.replace("@", "").replace("/", "-")}.tgz` ``. -/
def packFilename (name : String) : String :=
  String.mk (stripScopeChars name.data) ++ ".tgz"

/-- `generateOverrides` (build-blocksuite.ts line 598): the same template
expression as in `packBlocksuite`. -/
def overridesFilename (name : String) : String :=
  String.mk (stripScopeChars name.data) ++ ".tgz"

/-- `normalizeBaseName` from the comparator script:
`packageName.replace("@", "").replace("/", "-")` (no extension appended). -/
def normalizeBaseName (packageName : String) : String :=
  String.mk (stripScopeChars packageName.data)

/-- Model of JavaScript `String.prototype.startsWith`: a prefix test on the
character sequence. -/
def strStartsWith (s p : String) : Bool :=
  p.data.isPrefixOf s.data

/-! ## Workspace enumeration -/

/-- A parsed line of `yarn workspaces list --json` output (the `YarnWorkspace`
shape checked by `isYarnWorkspace`). -/
structure Workspace where
  name : String
  location : String
deriving DecidableEq, Repr

/-- `getBlocksuiteWorkspaces`: keep the parsed workspaces whose name starts
with `"@blocksuite/"`. -/
def getBlocksuiteWorkspaces (lines : List Workspace) : List Workspace :=
  lines.filter fun ws => strStartsWith ws.name "@blocksuite/"

/-! ## Basic lemmas about the filename transform -/

theorem replaceFirstChar_append_of_not_mem (r : List Char) (c : Char)
    {l : List Char} (h : c ∉ l) (m : List Char) :
    replaceFirstChar r c (l ++ m) = l ++ replaceFirstChar r c m := by
  induction l with
  | nil => simp
  | cons x xs ih =>
    have hx : x ≠ c := fun hxc => h (by simp [hxc])
    have hxs : c ∉ xs := fun hc => h (List.mem_cons_of_mem _ hc)
    simp [replaceFirstChar, hx, ih hxs]

theorem replaceFirstChar_cons_self (r : List Char) (c : Char) (t : List Char) :
    replaceFirstChar r c (c :: t) = r ++ t := by
  simp [replaceFirstChar]

/-- On any name of the form `"@blocksuite/" ++ suffix`, the transform removes
the leading `@` and turns the scope separator into a hyphen, leaving the
suffix untouched. -/
theorem stripScopeChars_blocksuite (t : List Char) :
    stripScopeChars ("@blocksuite/".data ++ t) = "blocksuite".data ++ '-' :: t := by
  have e1 : "@blocksuite/".data = '@' :: ("blocksuite".data ++ ['/']) := by rfl
  have hm : '/' ∉ "blocksuite".data := by decide
  unfold stripScopeChars
  rw [e1, List.cons_append, replaceFirstChar_cons_self, List.nil_append,
    List.append_assoc, List.singleton_append,
    replaceFirstChar_append_of_not_mem _ _ hm, replaceFirstChar_cons_self,
    List.singleton_append]

theorem string_ext_data {a b : String} (h : a.data = b.data) : a = b := by
  cases a; cases b; exact congrArg String.mk h

theorem packFilename_data (n : String) :
    (packFilename n).data = stripScopeChars n.data ++ ".tgz".data := by
  simp [packFilename, String.data_append]

/-- Any workspace that survives the `@blocksuite/` filter carries the
prefix. -/
theorem startsWith_of_mem_getBlocksuiteWorkspaces {lines : List Workspace}
    {ws : Workspace} (h : ws ∈ getBlocksuiteWorkspaces lines) :
    strStartsWith ws.name "@blocksuite/" = true :=
  (List.mem_filter.mp h).2

/-- A name with the `@blocksuite/` prefix splits as the prefix plus a
suffix. -/
theorem name_of_startsWith {n : String}
    (h : strStartsWith n "@blocksuite/" = true) :
    ∃ t, n.data = "@blocksuite/".data ++ t := by
  have hpre : "@blocksuite/".data <+: n.data :=
    List.isPrefixOf_iff_prefix.mp h
  obtain ⟨t, ht⟩ := hpre
  exact ⟨t, ht.symm⟩

/-- The filename transform is injective on names carrying the `@blocksuite/`
prefix: the prefix absorbs the one removed `@` and the one replaced `/`, so
the suffix survives unchanged. -/
theorem packFilename_inj_of_prefix {n₁ n₂ : String}
    (h₁ : strStartsWith n₁ "@blocksuite/" = true)
    (h₂ : strStartsWith n₂ "@blocksuite/" = true)
    (hne : n₁ ≠ n₂) : packFilename n₁ ≠ packFilename n₂ := by
  obtain ⟨t₁, ht₁⟩ := name_of_startsWith h₁
  obtain ⟨t₂, ht₂⟩ := name_of_startsWith h₂
  intro heq
  have hdata := congrArg String.data heq
  rw [packFilename_data, packFilename_data, ht₁, ht₂,
    stripScopeChars_blocksuite, stripScopeChars_blocksuite] at hdata
  have hcancel : t₁ = t₂ := by simpa using hdata
  have : n₁ = n₂ := by
    apply string_ext_data
    rw [ht₁, ht₂, hcancel]
  exact hne this

/-- C2: for every workspace package name of the form `@scope/name`, the derived
archive filename equals the package name with the leading `@` removed and the
`/` replaced by a hyphen, with `.tgz` appended; the pack step, the overrides
generator and the comparator all use this same transform. -/
theorem claim_C2_archive_filename (scope nm : String)
    (_hat : '@' ∉ scope.data) (hsl : '/' ∉ scope.data) :
    packFilename ("@" ++ scope ++ "/" ++ nm) = scope ++ "-" ++ nm ++ ".tgz"
    ∧ overridesFilename ("@" ++ scope ++ "/" ++ nm) = scope ++ "-" ++ nm ++ ".tgz"
    ∧ normalizeBaseName ("@" ++ scope ++ "/" ++ nm) ++ ".tgz"
        = scope ++ "-" ++ nm ++ ".tgz" := by
  have hdata : ("@" ++ scope ++ "/" ++ nm).data
      = '@' :: (scope.data ++ '/' :: nm.data) := by
    simp [String.data_append]
  have hstrip : stripScopeChars ("@" ++ scope ++ "/" ++ nm).data
      = scope.data ++ '-' :: nm.data := by
    rw [hdata]
    unfold stripScopeChars
    rw [replaceFirstChar_cons_self, List.nil_append,
      replaceFirstChar_append_of_not_mem _ _ hsl, replaceFirstChar_cons_self,
      List.singleton_append]
  have hgoal : String.mk (stripScopeChars ("@" ++ scope ++ "/" ++ nm).data) ++ ".tgz"
      = scope ++ "-" ++ nm ++ ".tgz" := by
    apply string_ext_data
    rw [String.data_append, hstrip]
    simp [String.data_append]
  refine ⟨hgoal, hgoal, ?_⟩
  exact hgoal

/-- Witness for C2 at the concrete package name `@blocksuite/blocks`. -/
theorem claim_C2_archive_filename_witness :
    ('@' ∉ "blocksuite".data) ∧ ('/' ∉ "blocksuite".data)
    ∧ (packFilename ("@" ++ "blocksuite" ++ "/" ++ "blocks")
          = "blocksuite" ++ "-" ++ "blocks" ++ ".tgz"
       ∧ overridesFilename ("@" ++ "blocksuite" ++ "/" ++ "blocks")
          = "blocksuite" ++ "-" ++ "blocks" ++ ".tgz"
       ∧ normalizeBaseName ("@" ++ "blocksuite" ++ "/" ++ "blocks") ++ ".tgz"
          = "blocksuite" ++ "-" ++ "blocks" ++ ".tgz") :=
  ⟨by decide, by decide,
    claim_C2_archive_filename "blocksuite" "blocks" (by decide) (by decide)⟩

/-- C3: over any enumerated workspace set (every member's name carries the
`@blocksuite/` prefix, as enforced by the enumeration filter), the
name-to-filename transform is injective: two distinct workspace names never
map to the same derived archive filename, so the collision the claim guards
against cannot occur. -/
theorem claim_C3_filename_injective (lines : List Workspace)
    (ws₁ ws₂ : Workspace)
    (h₁ : ws₁ ∈ getBlocksuiteWorkspaces lines)
    (h₂ : ws₂ ∈ getBlocksuiteWorkspaces lines)
    (hne : ws₁.name ≠ ws₂.name) :
    packFilename ws₁.name ≠ packFilename ws₂.name :=
  packFilename_inj_of_prefix
    (startsWith_of_mem_getBlocksuiteWorkspaces h₁)
    (startsWith_of_mem_getBlocksuiteWorkspaces h₂) hne

/-- Witness for C3 at two concrete distinct workspaces. -/
theorem claim_C3_filename_injective_witness :
    ((⟨"@blocksuite/blocks", "packages/blocks"⟩ : Workspace)
        ∈ getBlocksuiteWorkspaces
            [⟨"@blocksuite/blocks", "packages/blocks"⟩,
             ⟨"@blocksuite/std", "packages/std"⟩])
    ∧ ((⟨"@blocksuite/std", "packages/std"⟩ : Workspace)
        ∈ getBlocksuiteWorkspaces
            [⟨"@blocksuite/blocks", "packages/blocks"⟩,
             ⟨"@blocksuite/std", "packages/std"⟩])
    ∧ ("@blocksuite/blocks" : String) ≠ "@blocksuite/std"
    ∧ packFilename "@blocksuite/blocks" ≠ packFilename "@blocksuite/std" :=
  ⟨by decide, by decide, by decide,
    claim_C3_filename_injective
      [⟨"@blocksuite/blocks", "packages/blocks"⟩,
       ⟨"@blocksuite/std", "packages/std"⟩]
      ⟨"@blocksuite/blocks", "packages/blocks"⟩
      ⟨"@blocksuite/std", "packages/std"⟩
      (by decide) (by decide) (by decide)⟩

/-! ## Release lookup and creation (`ensureRelease`) -/

/-- A JavaScript runtime value, as far as the 404 test in `ensureRelease`
inspects one: a number, a string, or anything else. -/
inductive JsPrim where
  | num (n : Int)
  | str (s : String)
  | otherPrim
deriving DecidableEq, Repr

/-- The error value a failed release lookup rejects with, carrying exactly what
the catch block of `ensureRelease` inspects: whether the value is a plain
object (`isRecord`), and its `status` property (`none` when absent). -/
structure ApiError where
  isRecordVal : Bool
  status : Option JsPrim
deriving DecidableEq, Repr

/-- A GitHub release as used by the script: numeric id, tag, title, and the
draft/prerelease flags. -/
structure Release where
  releaseId : Nat
  tagName : String
  title : String
  draft : Bool
  prerelease : Bool
deriving DecidableEq, Repr

/-- The outcome of the `octokit.repos.getReleaseByTag` call. -/
inductive LookupOutcome where
  | ok (r : Release)
  | failed (e : ApiError)
deriving DecidableEq, Repr

/-- The guard of the catch block in `ensureRelease`:
`isRecord(error) && "status" in error && typeof error.status === "number" && error.status === 404`. -/
def isNotFound (e : ApiError) : Bool :=
  e.isRecordVal && decide (e.status = some (JsPrim.num 404))

/-- The release created by `octokit.repos.createRelease` as requested by
`ensureRelease` (the remote assigns the numeric id, here `freshId`). -/
def createRelease (freshId : Nat) (tag version : String) : Release :=
  { releaseId := freshId, tagName := tag, title := "Blocksuite " ++ version,
    draft := false, prerelease := false }

/-- `ensureRelease`: return the release found by tag unchanged; if the lookup
failed with exactly the not-found condition, create a non-draft,
non-prerelease release for the tag; rethrow any other lookup error. -/
def ensureRelease (lookup : LookupOutcome) (tag version : String)
    (freshId : Nat) : Except ApiError Release :=
  match lookup with
  | .ok r => .ok r
  | .failed e =>
    if isNotFound e then .ok (createRelease freshId tag version)
    else .error e

/-- C4: a 404 lookup failure (and only that failure) falls back to creating a
non-draft, non-prerelease release for the tag; any other lookup failure
propagates as fatal with no release created; a successful lookup returns the
existing release unchanged. -/
theorem claim_C4_ensureRelease (e : ApiError) (r : Release)
    (tag version : String) (freshId : Nat) :
    (isNotFound e = true →
      ensureRelease (.failed e) tag version freshId
        = .ok { releaseId := freshId, tagName := tag,
                title := "Blocksuite " ++ version,
                draft := false, prerelease := false })
    ∧ (isNotFound e = false →
      ensureRelease (.failed e) tag version freshId = .error e)
    ∧ ensureRelease (.ok r) tag version freshId = .ok r := by
  refine ⟨fun h404 => ?_, fun hother => ?_, rfl⟩
  · simp [ensureRelease, h404, createRelease]
  · simp [ensureRelease, hother]

/-- Witness for C4 at a concrete 404 error and a concrete 500 error. -/
theorem claim_C4_ensureRelease_witness :
    (ensureRelease (.failed ⟨true, some (JsPrim.num 404)⟩) "v1.0.0" "1.0.0" 7
      = .ok { releaseId := 7, tagName := "v1.0.0",
              title := "Blocksuite " ++ "1.0.0",
              draft := false, prerelease := false })
    ∧ (ensureRelease (.failed ⟨true, some (JsPrim.num 500)⟩) "v1.0.0" "1.0.0" 7
      = .error ⟨true, some (JsPrim.num 500)⟩) :=
  ⟨(claim_C4_ensureRelease ⟨true, some (JsPrim.num 404)⟩
      ⟨0, "", "", false, false⟩ "v1.0.0" "1.0.0" 7).1 (by decide),
   (claim_C4_ensureRelease ⟨true, some (JsPrim.num 500)⟩
      ⟨0, "", "", false, false⟩ "v1.0.0" "1.0.0" 7).2.1 (by decide)⟩

/-! ## Release asset reconciliation (`uploadReleaseAssets`) -/

/-- A release asset held by the remote release: name, remote-assigned numeric
id, raw bytes, and the content-type / content-length headers it was uploaded
with. -/
structure Asset where
  assetName : String
  assetId : Nat
  content : List Nat
  contentType : String
  contentLength : Nat
deriving DecidableEq, Repr

/-- The remote release's asset collection.  `nextId` is the next identifier the
remote will assign to an uploaded asset.  The store is permissive: it records
exactly the uploads and deletions the script requests, without imposing
remote-side name uniqueness itself. -/
structure AssetStore where
  assets : List Asset
  nextId : Nat
deriving DecidableEq, Repr

/-- An archive file handed to `uploadReleaseAssets`: its path and its raw
bytes (`await readFile(file)`). -/
structure ArchiveFile where
  path : String
  content : List Nat
deriving DecidableEq, Repr

/-- Model of JavaScript `String.prototype.split` with a character-class
separator pattern: the (possibly empty) segments between separator
characters, in order. -/
def splitChars (p : Char → Bool) : List Char → List (List Char)
  | [] => [[]]
  | c :: cs =>
    if p c then [] :: splitChars p cs
    else
      match splitChars p cs with
      | [] => [[c]]
      | seg :: rest => (c :: seg) :: rest

/-- `file.split(/[/\\]/).pop()` followed by the JS falsiness test `if (!name)`:
the final path segment, or `none` when that segment is the empty string (in
which case the loop `continue`s). -/
def assetNameOf (path : String) : Option String :=
  match (splitChars (fun c => c = '/' || c = '\\') path.data).getLast? with
  | some n => if n = [] then none else some (String.mk n)
  | none => none

/-- The asset names the files will be uploaded under, in processing order. -/
def baseNames (files : List ArchiveFile) : List String :=
  files.filterMap fun f => assetNameOf f.path

/-- JS `Map.get` on a map built with `new Map(entries)`: a later entry with the
same key overwrites an earlier one. -/
def jsMapGet (entries : List (String × Nat)) (k : String) : Option Nat :=
  ((entries.filter fun e => e.1 = k).getLast?).map fun e => e.2

/-- Failures surfaced by the remote asset API during reconciliation. -/
inductive AssetApiError where
  | deleteNotFound (assetId : Nat)
deriving DecidableEq, Repr

/-- `octokit.repos.deleteReleaseAsset`: remove the asset with the given id;
the remote rejects the request when no such asset exists. -/
def deleteAsset (st : AssetStore) (aid : Nat) : Except AssetApiError AssetStore :=
  if st.assets.any fun a => a.assetId = aid then
    .ok { st with assets := st.assets.filter fun a => a.assetId ≠ aid }
  else .error (.deleteNotFound aid)

/-- `octokit.repos.uploadReleaseAsset` as requested by the script: upload the
file bytes under the given name, with content type `application/gzip` and a
content-length header equal to the byte count; the remote appends the asset
under a fresh id. -/
def uploadAsset (st : AssetStore) (nm : String) (content : List Nat) : AssetStore :=
  { assets := st.assets ++
      [{ assetName := nm, assetId := st.nextId, content := content,
         contentType := "application/gzip", contentLength := content.length }],
    nextId := st.nextId + 1 }

/-- The `for (const file of files)` loop of `uploadReleaseAssets`, with
`existingNames` the name-to-id map captured from the re-fetched asset list
once, before the loop started. -/
def uploadLoop (existingNames : List (String × Nat)) :
    AssetStore → List ArchiveFile → Except AssetApiError AssetStore
  | st, [] => .ok st
  | st, f :: rest =>
    match assetNameOf f.path with
    | none => uploadLoop existingNames st rest
    | some nm =>
      match jsMapGet existingNames nm with
      | some aid =>
        match deleteAsset st aid with
        | .error e => .error e
        | .ok st₁ => uploadLoop existingNames (uploadAsset st₁ nm f.content) rest
      | none => uploadLoop existingNames (uploadAsset st nm f.content) rest

/-- `uploadReleaseAssets`: re-fetch the release's current asset list, capture
the name-to-id map, then process every file through the loop. -/
def uploadReleaseAssets (st : AssetStore) (files : List ArchiveFile) :
    Except AssetApiError AssetStore :=
  uploadLoop (st.assets.map fun a => (a.assetName, a.assetId)) st files

/-- The assets freshly uploaded for `files`, with ids assigned from `i`
upward. -/
def uploadsFrom (i : Nat) : List ArchiveFile → List Asset
  | [] => []
  | f :: rest =>
    match assetNameOf f.path with
    | none => uploadsFrom i rest
    | some nm =>
      { assetName := nm, assetId := i, content := f.content,
        contentType := "application/gzip", contentLength := f.content.length }
        :: uploadsFrom (i + 1) rest

/-- The store state after reconciling the files `done` against the initial
store `st`: the old assets whose names are not overwritten, followed by the
fresh uploads. -/
def midState (st : AssetStore) (done : List ArchiveFile) : AssetStore :=
  { assets := (st.assets.filter fun a => a.assetName ∉ baseNames done)
      ++ uploadsFrom st.nextId done,
    nextId := st.nextId + (baseNames done).length }

/-- Invariants the remote store maintains on a release's assets: names are
unique, ids are unique, and every id is below the next id the remote will
assign. -/
def WellFormedStore (st : AssetStore) : Prop :=
  (st.assets.map fun a => a.assetName).Nodup
  ∧ (st.assets.map fun a => a.assetId).Nodup
  ∧ ∀ a ∈ st.assets, a.assetId < st.nextId

/-- The part of an asset that is observable independently of the
remote-assigned id. -/
def assetObs (a : Asset) : String × List Nat × String × Nat :=
  (a.assetName, a.content, a.contentType, a.contentLength)

theorem baseNames_append (l₁ l₂ : List ArchiveFile) :
    baseNames (l₁ ++ l₂) = baseNames l₁ ++ baseNames l₂ := by
  simp [baseNames]

theorem baseNames_cons_none {f : ArchiveFile} (h : assetNameOf f.path = none)
    (l : List ArchiveFile) : baseNames (f :: l) = baseNames l := by
  simp [baseNames, List.filterMap_cons, h]

theorem baseNames_cons_some {f : ArchiveFile} {nm : String}
    (h : assetNameOf f.path = some nm) (l : List ArchiveFile) :
    baseNames (f :: l) = nm :: baseNames l := by
  simp [baseNames, List.filterMap_cons, h]

theorem uploadsFrom_append (i : Nat) (l₁ l₂ : List ArchiveFile) :
    uploadsFrom i (l₁ ++ l₂)
      = uploadsFrom i l₁ ++ uploadsFrom (i + (baseNames l₁).length) l₂ := by
  induction l₁ generalizing i with
  | nil => simp [uploadsFrom, baseNames]
  | cons f rest ih =>
    cases h : assetNameOf f.path with
    | none =>
      simp only [List.cons_append, uploadsFrom, h, List.append_eq, ih,
        baseNames_cons_none h]
    | some nm =>
      simp only [List.cons_append, uploadsFrom, h, List.append_eq, ih,
        baseNames_cons_some h, List.length_cons]
      have harith : i + 1 + (baseNames rest).length
          = i + ((baseNames rest).length + 1) := by omega
      rw [harith]

theorem uploadsFrom_names (i : Nat) (l : List ArchiveFile) :
    (uploadsFrom i l).map (fun a => a.assetName) = baseNames l := by
  induction l generalizing i with
  | nil => simp [uploadsFrom, baseNames]
  | cons f rest ih =>
    cases h : assetNameOf f.path with
    | none => simp [uploadsFrom, h, ih, baseNames_cons_none h]
    | some nm => simp [uploadsFrom, h, ih, baseNames_cons_some h]

theorem mem_uploadsFrom_id {i : Nat} {l : List ArchiveFile} {a : Asset}
    (h : a ∈ uploadsFrom i l) :
    i ≤ a.assetId ∧ a.assetId < i + (baseNames l).length := by
  induction l generalizing i with
  | nil => simp [uploadsFrom] at h
  | cons f rest ih =>
    cases hx : assetNameOf f.path with
    | none =>
      rw [uploadsFrom, hx] at h
      have := ih h
      rw [baseNames_cons_none hx]
      omega
    | some nm =>
      rw [uploadsFrom, hx] at h
      rw [baseNames_cons_some hx, List.length_cons]
      rcases List.mem_cons.mp h with heq | hmem
      · subst heq
        refine ⟨Nat.le_refl i, ?_⟩
        show i < i + ((baseNames rest).length + 1)
        omega
      · have := ih hmem; omega

theorem uploadsFrom_ids_nodup (i : Nat) (l : List ArchiveFile) :
    ((uploadsFrom i l).map fun a => a.assetId).Nodup := by
  induction l generalizing i with
  | nil => simp [uploadsFrom]
  | cons f rest ih =>
    cases hx : assetNameOf f.path with
    | none => rw [uploadsFrom, hx]; exact ih i
    | some nm =>
      rw [uploadsFrom, hx]
      refine List.nodup_cons.mpr ⟨?_, ih (i + 1)⟩
      intro hmem
      obtain ⟨a, ha, hid⟩ := List.mem_map.mp hmem
      have hlow := (mem_uploadsFrom_id ha).1
      have hid' : a.assetId = i := hid
      omega

theorem uploadsFrom_obs (i j : Nat) (l : List ArchiveFile) :
    (uploadsFrom i l).map assetObs = (uploadsFrom j l).map assetObs := by
  induction l generalizing i j with
  | nil => simp [uploadsFrom]
  | cons f rest ih =>
    cases hx : assetNameOf f.path with
    | none => rw [uploadsFrom, uploadsFrom, hx]; exact ih i j
    | some nm =>
      rw [uploadsFrom, uploadsFrom, hx]
      simp [assetObs, ih (i + 1) (j + 1)]

theorem jsMapGet_some_mem {entries : List (String × Nat)} {k : String} {v : Nat}
    (h : jsMapGet entries k = some v) : (k, v) ∈ entries := by
  unfold jsMapGet at h
  cases hl : (entries.filter fun e => e.1 = k).getLast? with
  | none => rw [hl] at h; simp at h
  | some e =>
    rw [hl] at h
    have hev : e.2 = v := by simpa using h
    have hmem0 : e ∈ entries.filter fun x => x.1 = k := by
      obtain ⟨hne, heq⟩ := List.mem_getLast?_eq_getLast (Option.mem_def.mpr hl)
      rw [heq]
      exact List.getLast_mem hne
    obtain ⟨hmem, hpred⟩ := List.mem_filter.mp hmem0
    have hek : e.1 = k := by simpa using hpred
    have hekv : e = (k, v) := Prod.ext hek hev
    rw [← hekv]
    exact hmem

theorem jsMapGet_assets_none {assets : List Asset} {nm : String}
    (h : ∀ a ∈ assets, a.assetName ≠ nm) :
    jsMapGet (assets.map fun a => (a.assetName, a.assetId)) nm = none := by
  unfold jsMapGet
  have hfil : (assets.map fun a => (a.assetName, a.assetId)).filter
      (fun e => e.1 = nm) = [] := by
    rw [List.filter_eq_nil_iff]
    intro e he
    obtain ⟨a, ha, hae⟩ := List.mem_map.mp he
    subst hae
    simpa using h a ha
  rw [hfil]
  rfl

theorem jsMapGet_assets_some {assets : List Asset}
    (hn : (assets.map fun a => a.assetName).Nodup)
    {a₀ : Asset} (ha₀ : a₀ ∈ assets) :
    jsMapGet (assets.map fun a => (a.assetName, a.assetId)) a₀.assetName
      = some a₀.assetId := by
  induction assets with
  | nil => simp at ha₀
  | cons b rest ih =>
    have hn' : (rest.map fun a => a.assetName).Nodup := (List.nodup_cons.mp (by simpa using hn)).2
    have hb : b.assetName ∉ rest.map fun a => a.assetName :=
      (List.nodup_cons.mp (by simpa using hn)).1
    rcases List.mem_cons.mp ha₀ with rfl | hmem
    · have hrest : (rest.map fun a => (a.assetName, a.assetId)).filter
          (fun e => e.1 = a₀.assetName) = [] := by
        rw [List.filter_eq_nil_iff]
        intro e he
        obtain ⟨a, ha, hae⟩ := List.mem_map.mp he
        subst hae
        intro hcontra
        exact hb (List.mem_map.mpr ⟨a, ha, by simpa using hcontra⟩)
      unfold jsMapGet
      simp only [List.map_cons, List.filter_cons]
      rw [if_pos (by simp)]
      rw [hrest]
      rfl
    · have hne : b.assetName ≠ a₀.assetName := by
        intro hcontra
        exact hb (List.mem_map.mpr ⟨a₀, hmem, hcontra.symm⟩)
      unfold jsMapGet at ih ⊢
      simp only [List.map_cons, List.filter_cons]
      rw [if_neg (by simpa using hne)]
      exact ih hn' hmem

theorem baseNames_nil : baseNames [] = [] := rfl

theorem midState_nil (st : AssetStore) : midState st [] = st := by
  cases st with
  | mk assets nextId => simp [midState, baseNames, uploadsFrom]

theorem midState_snoc (st : AssetStore) (pre : List ArchiveFile)
    {f : ArchiveFile} {nm : String} (hname : assetNameOf f.path = some nm) :
    midState st (pre ++ [f]) =
      { assets := (st.assets.filter
            fun a => a.assetName ∉ baseNames pre ++ [nm])
          ++ (uploadsFrom st.nextId pre
          ++ [{ assetName := nm, assetId := st.nextId + (baseNames pre).length,
                content := f.content, contentType := "application/gzip",
                contentLength := f.content.length }]),
        nextId := st.nextId + (baseNames pre).length + 1 } := by
  unfold midState
  rw [baseNames_append, uploadsFrom_append, baseNames_cons_some hname,
    baseNames_nil]
  simp [uploadsFrom, hname, Nat.add_assoc]

theorem uploadLoop_midState (st : AssetStore) (hw : WellFormedStore st) :
    ∀ (files pre : List ArchiveFile),
      (baseNames (pre ++ files)).Nodup →
      uploadLoop (st.assets.map fun a => (a.assetName, a.assetId))
        (midState st pre) files = .ok (midState st (pre ++ files)) := by
  intro files
  induction files with
  | nil =>
    intro pre _
    simp [uploadLoop]
  | cons f rest ih =>
    intro pre hnd
    have happ : (pre ++ [f]) ++ rest = pre ++ f :: rest := by simp
    cases hname : assetNameOf f.path with
    | none =>
      have hmid : midState st (pre ++ [f]) = midState st pre := by
        unfold midState
        rw [baseNames_append, baseNames_cons_none hname, baseNames_nil,
          uploadsFrom_append]
        simp [uploadsFrom, hname]
      have hrec := ih (pre ++ [f]) (by rw [happ]; exact hnd)
      rw [happ, hmid] at hrec
      simp only [uploadLoop, hname]
      exact hrec
    | some nm =>
      have hbn : baseNames (pre ++ f :: rest)
          = baseNames pre ++ nm :: baseNames rest := by
        rw [baseNames_append, baseNames_cons_some hname]
      have hnd' : (baseNames pre ++ nm :: baseNames rest).Nodup := by
        rw [← hbn]; exact hnd
      obtain ⟨hnd₁, hnd₂, hdisj⟩ := List.nodup_append.mp hnd'
      have hnm_pre : nm ∉ baseNames pre := fun hmem =>
        hdisj hmem (List.mem_cons_self nm _)
      have hrec := ih (pre ++ [f]) (by rw [happ]; exact hnd)
      rw [happ] at hrec
      cases hget : jsMapGet (st.assets.map fun a => (a.assetName, a.assetId)) nm with
      | none =>
        have hnone : ∀ a ∈ st.assets, a.assetName ≠ nm := by
          intro a ha hcontra
          have hx := jsMapGet_assets_some hw.1 ha
          rw [hcontra, hget] at hx
          exact Option.noConfusion hx
        have hstep : uploadAsset (midState st pre) nm f.content
            = midState st (pre ++ [f]) := by
          rw [midState_snoc st pre hname]
          unfold uploadAsset midState
          simp only [List.append_assoc]
          congr 2
          apply List.filter_congr
          intro a ha
          have hne : a.assetName ≠ nm := hnone a ha
          simp [List.mem_append, hne]
        simp only [uploadLoop, hname, hget]
        rw [hstep]
        exact hrec
      | some aid =>
        -- the map entry points at a live old asset named nm
        obtain ⟨a₀, ha₀, ha₀nm, ha₀id⟩ : ∃ a ∈ st.assets,
            a.assetName = nm ∧ a.assetId = aid := by
          have hmem := jsMapGet_some_mem hget
          obtain ⟨a, ha, hae⟩ := List.mem_map.mp hmem
          exact ⟨a, ha, congrArg Prod.fst hae, congrArg Prod.snd hae⟩
        have ha₀mid : a₀ ∈ (midState st pre).assets := by
          unfold midState
          apply List.mem_append_left
          apply List.mem_filter.mpr
          refine ⟨ha₀, ?_⟩
          simp [ha₀nm, hnm_pre]
        have hany : ((midState st pre).assets.any fun a => a.assetId = aid) = true :=
          List.any_eq_true.mpr ⟨a₀, ha₀mid, by simp [ha₀id]⟩
        have hdel : deleteAsset (midState st pre) aid
            = .ok { assets := (st.assets.filter
                                fun a => a.assetName ∉ baseNames pre ++ [nm])
                              ++ uploadsFrom st.nextId pre,
                    nextId := st.nextId + (baseNames pre).length } := by
          have h1 : ((st.assets.filter fun a => a.assetName ∉ baseNames pre).filter
              fun a => a.assetId ≠ aid)
              = st.assets.filter fun a => a.assetName ∉ baseNames pre ++ [nm] := by
            rw [List.filter_filter]
            apply List.filter_congr
            intro a ha
            have hiff : (a.assetId = aid) ↔ (a.assetName = nm) := by
              constructor
              · intro hid
                have hEq : a = a₀ := List.inj_on_of_nodup_map hw.2.1 ha ha₀
                  (by rw [hid, ha₀id])
                rw [hEq, ha₀nm]
              · intro hnmE
                have hEq : a = a₀ := List.inj_on_of_nodup_map hw.1 ha ha₀
                  (by rw [hnmE, ha₀nm])
                rw [hEq, ha₀id]
            by_cases hcase : a.assetName = nm
            · have hid : a.assetId = aid := hiff.mpr hcase
              simp [hcase, hid, List.mem_append]
            · have hid : a.assetId ≠ aid := fun hc => hcase (hiff.mp hc)
              simp [hcase, hid, List.mem_append]
          have h2 : ((uploadsFrom st.nextId pre).filter fun a => a.assetId ≠ aid)
              = uploadsFrom st.nextId pre := by
            apply List.filter_eq_self.mpr
            intro a ha
            have hlow := (mem_uploadsFrom_id ha).1
            have hhi := hw.2.2 a₀ ha₀
            simp only [ne_eq, decide_eq_true_eq]
            intro hc
            rw [hc] at hlow
            rw [ha₀id] at hhi
            omega
          unfold deleteAsset
          rw [if_pos hany]
          unfold midState
          rw [List.filter_append, h1, h2]
        have hstep : uploadAsset
            { assets := (st.assets.filter
                          fun a => a.assetName ∉ baseNames pre ++ [nm])
                        ++ uploadsFrom st.nextId pre,
              nextId := st.nextId + (baseNames pre).length } nm f.content
            = midState st (pre ++ [f]) := by
          rw [midState_snoc st pre hname]
          unfold uploadAsset
          simp [List.append_assoc]
        simp only [uploadLoop, hname, hget, hdel]
        rw [hstep]
        exact hrec

theorem uploadReleaseAssets_eq (st : AssetStore) (files : List ArchiveFile)
    (hw : WellFormedStore st) (hf : (baseNames files).Nodup) :
    uploadReleaseAssets st files = .ok (midState st files) := by
  have h := uploadLoop_midState st hw files [] (by simpa using hf)
  rw [midState_nil] at h
  simpa [uploadReleaseAssets] using h

theorem mem_uploadsFrom_name {i : Nat} {l : List ArchiveFile} {a : Asset}
    (h : a ∈ uploadsFrom i l) : a.assetName ∈ baseNames l := by
  rw [← uploadsFrom_names i l]
  exact List.mem_map_of_mem _ h

theorem midState_wellFormed (st : AssetStore) (files : List ArchiveFile)
    (hw : WellFormedStore st) (hf : (baseNames files).Nodup) :
    WellFormedStore (midState st files) := by
  obtain ⟨hn, hi, hlt⟩ := hw
  have hsubn : ((st.assets.filter
        fun a => a.assetName ∉ baseNames files).map fun a => a.assetName).Sublist
      (st.assets.map fun a => a.assetName) :=
    (List.filter_sublist _).map _
  have hsubi : ((st.assets.filter
        fun a => a.assetName ∉ baseNames files).map fun a => a.assetId).Sublist
      (st.assets.map fun a => a.assetId) :=
    (List.filter_sublist _).map _
  refine ⟨?_, ?_, ?_⟩
  · rw [midState]
    simp only [List.map_append, uploadsFrom_names]
    refine List.Nodup.append (hn.sublist hsubn) hf ?_
    intro x hx₁ hx₂
    obtain ⟨a, ha, hax⟩ := List.mem_map.mp hx₁
    have := (List.mem_filter.mp ha).2
    rw [hax] at this
    simp at this
    exact this hx₂
  · rw [midState]
    simp only [List.map_append]
    refine List.Nodup.append (hi.sublist hsubi) (uploadsFrom_ids_nodup _ _) ?_
    intro x hx₁ hx₂
    obtain ⟨a, ha, hax⟩ := List.mem_map.mp hx₁
    obtain ⟨b, hb, hbx⟩ := List.mem_map.mp hx₂
    have hble := (mem_uploadsFrom_id hb).1
    have halt := hlt a (List.mem_filter.mp ha).1
    rw [hax] at halt
    rw [hbx] at hble
    omega
  · rw [midState]
    intro a ha
    rcases List.mem_append.mp ha with hmem | hmem
    · have := hlt a (List.mem_filter.mp hmem).1
      simp only []
      omega
    · have := (mem_uploadsFrom_id hmem).2
      simp only []
      omega

theorem midState_obs_idem (st : AssetStore) (files : List ArchiveFile) :
    (midState (midState st files) files).assets.map assetObs
      = (midState st files).assets.map assetObs := by
  have hfil : ((midState st files).assets.filter
      fun a => a.assetName ∉ baseNames files)
      = st.assets.filter fun a => a.assetName ∉ baseNames files := by
    rw [midState]
    rw [List.filter_append]
    have h1 : ((st.assets.filter fun a => a.assetName ∉ baseNames files).filter
        fun a => a.assetName ∉ baseNames files)
        = st.assets.filter fun a => a.assetName ∉ baseNames files :=
      List.filter_eq_self.mpr fun a ha => (List.mem_filter.mp ha).2
    have h2 : ((uploadsFrom st.nextId files).filter
        fun a => a.assetName ∉ baseNames files) = [] := by
      apply List.filter_eq_nil_iff.mpr
      intro a ha
      have := mem_uploadsFrom_name ha
      simp [this]
    rw [h1, h2, List.append_nil]
  conv_lhs => rw [midState]
  rw [hfil]
  conv_rhs => rw [midState]
  simp only [List.map_append]
  rw [uploadsFrom_obs (midState st files).nextId st.nextId]

theorem uploadsFrom_covers {files : List ArchiveFile} {f : ArchiveFile}
    {nm : String} (hmemf : f ∈ files) (hnm : assetNameOf f.path = some nm)
    (i : Nat) :
    ∃ a ∈ uploadsFrom i files, a.assetName = nm ∧ a.content = f.content
      ∧ a.contentType = "application/gzip"
      ∧ a.contentLength = f.content.length := by
  induction files generalizing i with
  | nil => simp at hmemf
  | cons g rest ih =>
    rcases List.mem_cons.mp hmemf with rfl | hmem
    · rw [uploadsFrom, hnm]
      exact ⟨_, List.mem_cons_self _ _, rfl, rfl, rfl, rfl⟩
    · cases hg : assetNameOf g.path with
      | none =>
        rw [uploadsFrom, hg]
        exact ih hmem i
      | some x =>
        rw [uploadsFrom, hg]
        obtain ⟨a, ha, hrest⟩ := ih hmem (i + 1)
        exact ⟨a, List.mem_cons_of_mem _ ha, hrest⟩

/-- C1 (amended): provided the pre-existing asset set is well formed (distinct
names, distinct ids, ids below the next id the remote will assign) and the
files' basenames are pairwise distinct, reconciliation succeeds and the final
asset set contains no two assets with the same filename; every pre-existing
asset whose name matches an uploaded basename is gone and every other
pre-existing asset survives; every file is present as an asset with content
type `application/gzip` and content length equal to its byte count; and
running the reconciliation a second time with the same files yields the same
final asset set up to the remote-assigned ids. -/
theorem claim_C1_reconcile (st : AssetStore) (files : List ArchiveFile)
    (hw : WellFormedStore st) (hf : (baseNames files).Nodup) :
    ∃ st₁, uploadReleaseAssets st files = .ok st₁
      ∧ (st₁.assets.map fun a => a.assetName).Nodup
      ∧ (∀ a ∈ st.assets, a.assetName ∈ baseNames files → a ∉ st₁.assets)
      ∧ (∀ a ∈ st.assets, a.assetName ∉ baseNames files → a ∈ st₁.assets)
      ∧ (∀ g ∈ files, ∀ nm, assetNameOf g.path = some nm →
          ∃ a ∈ st₁.assets, a.assetName = nm ∧ a.content = g.content
            ∧ a.contentType = "application/gzip"
            ∧ a.contentLength = g.content.length)
      ∧ ∃ st₂, uploadReleaseAssets st₁ files = .ok st₂
          ∧ st₂.assets.map assetObs = st₁.assets.map assetObs := by
  refine ⟨midState st files, uploadReleaseAssets_eq st files hw hf, ?_, ?_, ?_, ?_, ?_⟩
  · exact (midState_wellFormed st files hw hf).1
  · intro a ha hbn hmem
    rw [midState] at hmem
    rcases List.mem_append.mp hmem with hmem' | hmem'
    · have := (List.mem_filter.mp hmem').2
      simp at this
      exact this hbn
    · have hge := (mem_uploadsFrom_id hmem').1
      have hlt := hw.2.2 a ha
      omega
  · intro a ha hbn
    rw [midState]
    apply List.mem_append_left
    apply List.mem_filter.mpr
    exact ⟨ha, by simpa using hbn⟩
  · intro g hg nm hnm
    obtain ⟨a, ha, hprops⟩ := uploadsFrom_covers hg hnm st.nextId
    refine ⟨a, ?_, hprops⟩
    rw [midState]
    exact List.mem_append_right _ ha
  · exact ⟨midState (midState st files) files,
      uploadReleaseAssets_eq _ files (midState_wellFormed st files hw hf) hf,
      midState_obs_idem st files⟩

/-- Witness for C1 (amended) at a concrete well-formed store and file list:
the release already holds `x.tgz`, and the files upload a new `x.tgz` plus a
fresh `y.tgz`. -/
theorem claim_C1_reconcile_witness :
    WellFormedStore ⟨[⟨"x.tgz", 3, [7], "application/gzip", 1⟩], 4⟩
    ∧ (baseNames [⟨"dist/x.tgz", [1, 2]⟩, ⟨"dist/y.tgz", [3]⟩]).Nodup
    ∧ ∃ st₁, uploadReleaseAssets ⟨[⟨"x.tgz", 3, [7], "application/gzip", 1⟩], 4⟩
          [⟨"dist/x.tgz", [1, 2]⟩, ⟨"dist/y.tgz", [3]⟩] = .ok st₁
        ∧ (st₁.assets.map fun a => a.assetName).Nodup
        ∧ (∀ a ∈ ([⟨"x.tgz", 3, [7], "application/gzip", 1⟩] : List Asset),
            a.assetName ∈ baseNames [⟨"dist/x.tgz", [1, 2]⟩, ⟨"dist/y.tgz", [3]⟩]
              → a ∉ st₁.assets)
        ∧ (∀ a ∈ ([⟨"x.tgz", 3, [7], "application/gzip", 1⟩] : List Asset),
            a.assetName ∉ baseNames [⟨"dist/x.tgz", [1, 2]⟩, ⟨"dist/y.tgz", [3]⟩]
              → a ∈ st₁.assets)
        ∧ (∀ g ∈ ([⟨"dist/x.tgz", [1, 2]⟩, ⟨"dist/y.tgz", [3]⟩] : List ArchiveFile),
            ∀ nm, assetNameOf g.path = some nm →
            ∃ a ∈ st₁.assets, a.assetName = nm ∧ a.content = g.content
              ∧ a.contentType = "application/gzip"
              ∧ a.contentLength = g.content.length)
        ∧ ∃ st₂, uploadReleaseAssets st₁
              [⟨"dist/x.tgz", [1, 2]⟩, ⟨"dist/y.tgz", [3]⟩] = .ok st₂
            ∧ st₂.assets.map assetObs = st₁.assets.map assetObs :=
  ⟨⟨by decide, by decide, by decide⟩, by decide,
    claim_C1_reconcile ⟨[⟨"x.tgz", 3, [7], "application/gzip", 1⟩], 4⟩
      [⟨"dist/x.tgz", [1, 2]⟩, ⟨"dist/y.tgz", [3]⟩]
      ⟨by decide, by decide, by decide⟩ (by decide)⟩

/-- Counterexample for C1 as stated: when two files share a basename (here
`a/x.tgz` and `b/x.tgz`), the stale name-to-id map captured before the loop
makes the second upload proceed without removing the first one, so the final
asset set holds two assets named `x.tgz` — the claimed invariant fails on this
file list. -/
theorem claim_C1_counterexample :
    uploadReleaseAssets ⟨[], 0⟩ [⟨"a/x.tgz", [1]⟩, ⟨"b/x.tgz", [2]⟩]
      = .ok ⟨[⟨"x.tgz", 0, [1], "application/gzip", 1⟩,
              ⟨"x.tgz", 1, [2], "application/gzip", 1⟩], 2⟩
    ∧ ¬ (([⟨"x.tgz", 0, [1], "application/gzip", 1⟩,
           ⟨"x.tgz", 1, [2], "application/gzip", 1⟩] : List Asset).map
          fun a => a.assetName).Nodup := by
  constructor
  · rfl
  · decide

/-! ## The build pipeline (`buildAndMaybeUpload`) -/

/-- A filesystem path, as its list of components; the scripts only ever build
paths by resolving or joining components under the repository root. -/
abbrev PathC := List String

/-- The external world one pipeline run observes: whether `git status
--porcelain` reports a clean tree, the parsed `yarn workspaces list --json`
output, the state of the pack directory (`none` when it does not exist), and
whether the process runs inside GitHub Actions. -/
structure Env where
  repoClean : Bool
  workspaceLines : List Workspace
  packDirState : Option (List String)
  githubActions : Bool
deriving DecidableEq, Repr

/-- The validated CLI options of the build command (`BuildOptions`). -/
structure BuildOpts where
  packDir : PathC
  packages : Option (List String)
  skipInstall : Bool
  upload : Bool
  artifactName : String
  clean : Bool
  excludeWorkspaces : List String
deriving DecidableEq, Repr

/-- `DEFAULT_EXCLUDED_WORKSPACES` from the script. -/
def DEFAULT_EXCLUDED_WORKSPACES : List String :=
  ["@blocksuite/e2e", "@blocksuite/playground"]

/-- One externally visible action of the pipeline, in execution order. -/
inductive Step where
  | ensureRepo
  | assertClean
  | checkLayout
  | patchPublishConfig
  | configureYarn
  | installDeps
  | buildWorkspaces (excludes : List String)
  | removePackDir
  | mkdirPackDir
  | packWorkspace (name : String)
  | writeOverrides (path : PathC)
  | uploadArtifactStep (artifactName : String)
deriving DecidableEq, Repr

/-- The failures the pipeline itself raises. -/
inductive PipeError where
  | dirtyRepo
  | noWorkspaces
  | workspaceNotFound (name : String)
  | noTarballs
deriving DecidableEq, Repr

/-- JS `Map.get` on `new Map(workspaces.map(ws => [ws.name, ws]))`: the last
workspace with a given name wins. -/
def wsLookup (workspaces : List Workspace) (n : String) : Option Workspace :=
  (workspaces.filter fun ws => ws.name = n).getLast?

/-- `packages.map(name => { ... throw ... })`: resolve each requested name in
order, failing at the first name with no matching workspace. -/
def resolveTargets (workspaces : List Workspace) :
    List String → Except PipeError (List Workspace)
  | [] => .ok []
  | n :: ns =>
    match wsLookup workspaces n with
    | none => .error (.workspaceNotFound n)
    | some ws => (resolveTargets workspaces ns).map fun rest => ws :: rest

/-- `const targets = packages?.length ? packages.map(...) : workspaces`:
an absent or empty subset selects every enumerated workspace. -/
def targetsOf (workspaces : List Workspace) (packages : Option (List String)) :
    Except PipeError (List Workspace) :=
  match packages with
  | some pkgs =>
    if pkgs.isEmpty then .ok workspaces else resolveTargets workspaces pkgs
  | none => .ok workspaces

/-- Writing `filename` into a directory: `yarn pack --out` overwrites an
existing file of the same name. -/
def insertFile (contents : List String) (filename : String) : List String :=
  if filename ∈ contents then contents else contents ++ [filename]

/-- The value returned by `packBlocksuite`, together with the final contents
of the pack directory. -/
structure PackResult where
  absolutePackDir : PathC
  files : List PathC
  dirContents : List String
deriving DecidableEq, Repr

/-- `packBlocksuite`: when the clean flag is set and the pack directory
exists, remove it; recreate it; enumerate the workspaces; resolve the targets
(the full enumerated set unless an explicit subset was requested); pack one
archive per target under the derived filename; fail when no tarball was
produced. -/
def packBlocksuite (root : PathC) (lines : List Workspace) (packDir : PathC)
    (dirState : Option (List String)) (clean : Bool)
    (packages : Option (List String)) :
    List Step × Except PipeError PackResult :=
  let absolutePackDir := root ++ packDir
  let removeSteps := if clean && dirState.isSome then [Step.removePackDir] else []
  let d₀ : Option (List String) :=
    if clean && dirState.isSome then none else dirState
  let d₁ := d₀.getD []
  let workspaces := getBlocksuiteWorkspaces lines
  match targetsOf workspaces packages with
  | .error e => (removeSteps ++ [Step.mkdirPackDir], .error e)
  | .ok targets =>
    let files := targets.map fun ws => absolutePackDir ++ [packFilename ws.name]
    let d₂ := targets.foldl (fun d ws => insertFile d (packFilename ws.name)) d₁
    if files.isEmpty then
      (removeSteps ++ [Step.mkdirPackDir], .error .noTarballs)
    else
      (removeSteps ++ [Step.mkdirPackDir]
        ++ targets.map fun ws => Step.packWorkspace ws.name,
       .ok ⟨absolutePackDir, files, d₂⟩)

/-- Strip the longest common prefix of two component lists. -/
def dropCommon : List String → List String → List String × List String
  | a :: as, b :: bs =>
    if a = b then dropCommon as bs else (a :: as, b :: bs)
  | as, bs => (as, bs)

/-- `path.relative(src, dst)` on component lists: climb out of the remaining
source components, then descend into the remaining destination components. -/
def relativePath (src dst : PathC) : PathC :=
  let rest := dropCommon src dst
  rest.1.map (fun _ => "..") ++ rest.2

/-- Render a relative component path the way `join` produces it in the
`file:./` template. -/
def renderRelPath (p : PathC) : String :=
  String.intercalate "/" p

/-- `generateOverrides`: enumerate the workspaces again, compute the pack
directory's path relative to the fixed `dist` directory under the repository
root, map every enumerated workspace name to a `file:./` reference to its
archive, and save the mapping to `dist/blocksuite-package-overrides.json`.
Returns the written file's path and the mapping. -/
def generateOverrides (root : PathC) (lines : List Workspace)
    (packDir : PathC) : PathC × List (String × String) :=
  let workspaces := getBlocksuiteWorkspaces lines
  let overridesDir := root ++ ["dist"]
  let relativePackDir := relativePath overridesDir packDir
  (overridesDir ++ ["blocksuite-package-overrides.json"],
   workspaces.map fun ws =>
     (ws.name,
      "file:./" ++ renderRelPath (relativePackDir ++ [overridesFilename ws.name])))

/-- The observable outcome of a successful pipeline run. -/
structure PipeResult where
  absolutePackDir : PathC
  files : List PathC
  packDirContents : List String
  overridesPath : PathC
  overrides : List (String × String)
deriving DecidableEq, Repr

/-- `buildAndMaybeUpload`: ensure the checkout, assert it is clean, check the
workspace layout, patch the publish configuration, configure yarn, install
dependencies (unless skipped), build with the exclusion list, pack, generate
the overrides, and optionally upload the CI artifact (skipped with a warning
outside GitHub Actions). -/
def buildAndMaybeUpload (root : PathC) (env : Env) (opts : BuildOpts) :
    List Step × Except PipeError PipeResult :=
  let excludes := if opts.excludeWorkspaces.isEmpty then
      DEFAULT_EXCLUDED_WORKSPACES else opts.excludeWorkspaces
  let t₀ := [Step.ensureRepo, Step.assertClean]
  if !env.repoClean then (t₀, .error .dirtyRepo)
  else
    let t₁ := t₀ ++ [Step.checkLayout]
    if (getBlocksuiteWorkspaces env.workspaceLines).isEmpty then
      (t₁, .error .noWorkspaces)
    else
      let t₂ := t₁ ++ [Step.patchPublishConfig, Step.configureYarn]
        ++ (if opts.skipInstall then [] else [Step.installDeps])
        ++ [Step.buildWorkspaces excludes]
      match packBlocksuite root env.workspaceLines opts.packDir
          env.packDirState opts.clean opts.packages with
      | (ps, .error e) => (t₂ ++ ps, .error e)
      | (ps, .ok pr) =>
        let ov := generateOverrides root env.workspaceLines pr.absolutePackDir
        let t₃ := t₂ ++ ps ++ [Step.writeOverrides ov.1]
        let t₄ := t₃ ++ (if opts.upload && env.githubActions then
            [Step.uploadArtifactStep opts.artifactName] else [])
        (t₄, .ok ⟨pr.absolutePackDir, pr.files, pr.dirContents, ov.1, ov.2⟩)

theorem packBlocksuite_clean_snd (root : PathC) (lines : List Workspace)
    (packDir : PathC) (d d' : Option (List String))
    (pkgs : Option (List String)) :
    (packBlocksuite root lines packDir d true pkgs).2
      = (packBlocksuite root lines packDir d' true pkgs).2 := by
  unfold packBlocksuite
  cases htg : targetsOf (getBlocksuiteWorkspaces lines) pkgs with
  | error e => cases d <;> cases d' <;> simp [htg]
  | ok targets => cases d <;> cases d' <;> cases targets <;> simp [htg]

/-- C6: with the clean flag set, the pack step removes the output directory
(when it exists) and recreates it before packing, so the pipeline result —
in particular the final file set of the output directory — does not depend on
the directory's initial state: running the pipeline twice with `--clean`
yields the same final directory contents both times. -/
theorem claim_C6_clean_independent (root : PathC) (env : Env)
    (opts : BuildOpts) (hclean : opts.clean = true)
    (d d' : Option (List String)) :
    (buildAndMaybeUpload root { env with packDirState := d } opts).2
      = (buildAndMaybeUpload root { env with packDirState := d' } opts).2 := by
  have hsnd := packBlocksuite_clean_snd root env.workspaceLines opts.packDir
    d d' opts.packages
  unfold buildAndMaybeUpload
  rw [hclean]
  cases hrc : env.repoClean with
  | false => simp
  | true =>
    simp only [Bool.not_true]
    cases hws : (getBlocksuiteWorkspaces env.workspaceLines).isEmpty with
    | true => simp
    | false =>
      simp only [Bool.false_eq_true, if_false]
      rcases hp₁ : packBlocksuite root env.workspaceLines opts.packDir d true
          opts.packages with ⟨ps₁, r₁⟩
      rcases hp₂ : packBlocksuite root env.workspaceLines opts.packDir d' true
          opts.packages with ⟨ps₂, r₂⟩
      rw [hp₁, hp₂] at hsnd
      simp only [] at hsnd
      subst hsnd
      cases r₁ with
      | error e => simp
      | ok pr => simp

/-- Witness for C6 at a concrete environment, with an existing dirty output
directory versus an absent one. -/
theorem claim_C6_clean_independent_witness :
    ((⟨["dist"], none, true, false, "bs", true, []⟩ : BuildOpts).clean = true)
    ∧ (buildAndMaybeUpload ["R"]
        { (⟨true, [⟨"@blocksuite/blocks", "p"⟩], none, false⟩ : Env) with
            packDirState := some ["stale.tgz"] }
        ⟨["dist"], none, true, false, "bs", true, []⟩).2
      = (buildAndMaybeUpload ["R"]
        { (⟨true, [⟨"@blocksuite/blocks", "p"⟩], none, false⟩ : Env) with
            packDirState := none }
        ⟨["dist"], none, true, false, "bs", true, []⟩).2 :=
  ⟨rfl, claim_C6_clean_independent ["R"]
    ⟨true, [⟨"@blocksuite/blocks", "p"⟩], none, false⟩
    ⟨["dist"], none, true, false, "bs", true, []⟩ rfl
    (some ["stale.tgz"]) none⟩

theorem foldl_insertFile_of_nodup :
    ∀ (l acc : List String), (acc ++ l).Nodup →
      List.foldl insertFile acc l = acc ++ l := by
  intro l
  induction l with
  | nil => intro acc _; simp
  | cons x xs ih =>
    intro acc h
    have hx : x ∉ acc := by
      obtain ⟨h₁, h₂, hdisj⟩ := List.nodup_append.mp h
      intro hc
      exact hdisj hc (List.mem_cons_self _ _)
    rw [List.foldl_cons, insertFile, if_neg hx]
    have hrest := ih (acc ++ [x]) (by simpa using h)
    rw [hrest]
    simp

theorem packFilenames_nodup {lines : List Workspace}
    (h : ((getBlocksuiteWorkspaces lines).map fun ws => ws.name).Nodup) :
    ((getBlocksuiteWorkspaces lines).map
      fun ws => packFilename ws.name).Nodup := by
  have hmap : (getBlocksuiteWorkspaces lines).map (fun ws => packFilename ws.name)
      = ((getBlocksuiteWorkspaces lines).map fun ws => ws.name).map
          packFilename := by
    rw [List.map_map]
    rfl
  rw [hmap]
  apply List.Nodup.map_on ?_ h
  intro x hx y hy hxy
  by_contra hne
  obtain ⟨wsx, hwsx, hwx⟩ := List.mem_map.mp hx
  obtain ⟨wsy, hwsy, hwy⟩ := List.mem_map.mp hy
  exact packFilename_inj_of_prefix
    (hwx ▸ startsWith_of_mem_getBlocksuiteWorkspaces hwsx)
    (hwy ▸ startsWith_of_mem_getBlocksuiteWorkspaces hwsy) hne hxy

/-- C7 (amended): in a default run (no explicit subset, clean flag unset,
empty output directory), the pack step packs every enumerated matching
workspace — the exclusion list is consulted only by the build step, not by
the pack step — so the output directory afterwards contains exactly one
`.tgz` archive per matching workspace, including the workspaces named in the
exclusion list. -/
theorem claim_C7_default_run_archives (root : PathC) (env : Env)
    (opts : BuildOpts)
    (hrc : env.repoClean = true)
    (hpkg : opts.packages = none)
    (hcl : opts.clean = false)
    (hdir : env.packDirState = some [])
    (hne : getBlocksuiteWorkspaces env.workspaceLines ≠ [])
    (hnodup : ((getBlocksuiteWorkspaces env.workspaceLines).map
        fun ws => ws.name).Nodup) :
    ∃ pr, (buildAndMaybeUpload root env opts).2 = .ok pr
      ∧ pr.packDirContents
          = (getBlocksuiteWorkspaces env.workspaceLines).map
              fun ws => packFilename ws.name := by
  have hfold : List.foldl (fun d ws => insertFile d (packFilename ws.name)) []
      (getBlocksuiteWorkspaces env.workspaceLines)
      = (getBlocksuiteWorkspaces env.workspaceLines).map
          fun ws => packFilename ws.name := by
    have h1 := List.foldl_map (fun ws : Workspace => packFilename ws.name)
      insertFile (getBlocksuiteWorkspaces env.workspaceLines) []
    rw [← h1]
    have h2 := foldl_insertFile_of_nodup
      ((getBlocksuiteWorkspaces env.workspaceLines).map
        fun ws => packFilename ws.name) []
      (by simpa using packFilenames_nodup hnodup)
    simpa using h2
  have hpack : packBlocksuite root env.workspaceLines opts.packDir (some [])
      false none
      = ([Step.mkdirPackDir]
          ++ (getBlocksuiteWorkspaces env.workspaceLines).map
              (fun ws => Step.packWorkspace ws.name),
        .ok ⟨root ++ opts.packDir,
          (getBlocksuiteWorkspaces env.workspaceLines).map
            fun ws => (root ++ opts.packDir) ++ [packFilename ws.name],
          List.foldl (fun d ws => insertFile d (packFilename ws.name)) []
            (getBlocksuiteWorkspaces env.workspaceLines)⟩) := by
    unfold packBlocksuite targetsOf
    cases hcase : getBlocksuiteWorkspaces env.workspaceLines with
    | nil => exact absurd hcase hne
    | cons w ws' => simp
  have hemp : (getBlocksuiteWorkspaces env.workspaceLines).isEmpty = false := by
    cases hcase : getBlocksuiteWorkspaces env.workspaceLines with
    | nil => exact absurd hcase hne
    | cons w ws' => rfl
  refine ⟨⟨root ++ opts.packDir,
    (getBlocksuiteWorkspaces env.workspaceLines).map
      fun ws => (root ++ opts.packDir) ++ [packFilename ws.name],
    (getBlocksuiteWorkspaces env.workspaceLines).map
      fun ws => packFilename ws.name,
    (generateOverrides root env.workspaceLines (root ++ opts.packDir)).1,
    (generateOverrides root env.workspaceLines (root ++ opts.packDir)).2⟩,
    ?_, rfl⟩
  unfold buildAndMaybeUpload
  rw [hrc, hemp, hdir, hcl, hpkg, hpack]
  simp [hfold]

/-- Witness for C7 (amended) at a concrete default run over two workspaces,
one of which is excluded by default. -/
theorem claim_C7_default_run_archives_witness :
    getBlocksuiteWorkspaces
        [⟨"@blocksuite/blocks", "p1"⟩, ⟨"@blocksuite/e2e", "p2"⟩] ≠ []
    ∧ ((getBlocksuiteWorkspaces
        [⟨"@blocksuite/blocks", "p1"⟩, ⟨"@blocksuite/e2e", "p2"⟩]).map
          fun ws => ws.name).Nodup
    ∧ ∃ pr, (buildAndMaybeUpload ["R"]
        ⟨true, [⟨"@blocksuite/blocks", "p1"⟩, ⟨"@blocksuite/e2e", "p2"⟩],
          some [], false⟩
        ⟨["dist", "blocksuite-tgz"], none, true, false, "bs", false, []⟩).2
          = .ok pr
        ∧ pr.packDirContents
            = (getBlocksuiteWorkspaces
                [⟨"@blocksuite/blocks", "p1"⟩, ⟨"@blocksuite/e2e", "p2"⟩]).map
                fun ws => packFilename ws.name :=
  ⟨by decide, by decide,
    claim_C7_default_run_archives ["R"]
      ⟨true, [⟨"@blocksuite/blocks", "p1"⟩, ⟨"@blocksuite/e2e", "p2"⟩],
        some [], false⟩
      ⟨["dist", "blocksuite-tgz"], none, true, false, "bs", false, []⟩
      rfl rfl rfl rfl (by decide) (by decide)⟩

/-- Counterexample for C7 as stated: in a default run over the workspaces
`@blocksuite/blocks` and `@blocksuite/e2e`, the output directory afterwards
also contains `blocksuite-e2e.tgz` even though `@blocksuite/e2e` is on the
default exclusion list — the exclusion list does not restrict the produced
archive set. -/
theorem claim_C7_counterexample :
    ((buildAndMaybeUpload ["R"]
        ⟨true, [⟨"@blocksuite/blocks", "p1"⟩, ⟨"@blocksuite/e2e", "p2"⟩],
          some [], false⟩
        ⟨["dist", "blocksuite-tgz"], none, true, false, "bs", false, []⟩).2.map
        fun pr => pr.packDirContents)
      = .ok ["blocksuite-blocks.tgz", "blocksuite-e2e.tgz"]
    ∧ "@blocksuite/e2e" ∈ DEFAULT_EXCLUDED_WORKSPACES
    ∧ ("blocksuite-e2e.tgz" : String)
        ∈ ["blocksuite-blocks.tgz", "blocksuite-e2e.tgz"]
    ∧ (["blocksuite-blocks.tgz", "blocksuite-e2e.tgz"] : List String)
        ≠ ["blocksuite-blocks.tgz"] :=
  ⟨rfl, by decide, by decide, by decide⟩

theorem resolveTargets_error {workspaces : List Workspace} :
    ∀ {pkgs : List String}, (∃ n ∈ pkgs, wsLookup workspaces n = none) →
      ∃ m ∈ pkgs, wsLookup workspaces m = none
        ∧ resolveTargets workspaces pkgs
            = .error (.workspaceNotFound m) := by
  intro pkgs
  induction pkgs with
  | nil =>
    rintro ⟨n, hn, _⟩
    simp at hn
  | cons p ps ih =>
    rintro ⟨n, hn, hnone⟩
    cases hp : wsLookup workspaces p with
    | none =>
      exact ⟨p, List.mem_cons_self _ _, hp, by rw [resolveTargets, hp]⟩
    | some ws =>
      have hn' : n ∈ ps := by
        rcases List.mem_cons.mp hn with rfl | h
        · rw [hp] at hnone; exact Option.noConfusion hnone
        · exact h
      obtain ⟨m, hm, hm2, hm3⟩ := ih ⟨n, hn', hnone⟩
      refine ⟨m, List.mem_cons_of_mem _ hm, hm2, ?_⟩
      rw [resolveTargets, hp, hm3]
      rfl

/-- C5 (amended): requesting an explicit subset containing a name absent from
the enumerated workspace set makes the pipeline fail with a
workspace-not-found configuration error — but only during the pack phase,
after the build step has already run; no workspace is packed, no overrides
file is written and no artifact is uploaded. -/
theorem claim_C5_missing_package (root : PathC) (env : Env) (opts : BuildOpts)
    (pkgs : List String)
    (hrc : env.repoClean = true)
    (hws : getBlocksuiteWorkspaces env.workspaceLines ≠ [])
    (hpkgs : opts.packages = some pkgs)
    (hmiss : ∃ n ∈ pkgs,
      wsLookup (getBlocksuiteWorkspaces env.workspaceLines) n = none) :
    ∃ m ∈ pkgs,
      wsLookup (getBlocksuiteWorkspaces env.workspaceLines) m = none
      ∧ (buildAndMaybeUpload root env opts).2
          = .error (.workspaceNotFound m)
      ∧ Step.buildWorkspaces (if opts.excludeWorkspaces.isEmpty then
            DEFAULT_EXCLUDED_WORKSPACES else opts.excludeWorkspaces)
          ∈ (buildAndMaybeUpload root env opts).1
      ∧ (∀ nm, Step.packWorkspace nm ∉ (buildAndMaybeUpload root env opts).1)
      ∧ (∀ p, Step.writeOverrides p ∉ (buildAndMaybeUpload root env opts).1)
      ∧ (∀ s, Step.uploadArtifactStep s
          ∉ (buildAndMaybeUpload root env opts).1) := by
  obtain ⟨m, hm, hmn, hres⟩ := resolveTargets_error hmiss
  have hpe : pkgs.isEmpty = false := by
    cases pkgs with
    | nil => simp at hm
    | cons a l => rfl
  have hemp : (getBlocksuiteWorkspaces env.workspaceLines).isEmpty = false := by
    cases hcase : getBlocksuiteWorkspaces env.workspaceLines with
    | nil => exact absurd hcase hws
    | cons w ws' => rfl
  have hpack : packBlocksuite root env.workspaceLines opts.packDir
      env.packDirState opts.clean (some pkgs)
      = ((if opts.clean && env.packDirState.isSome then [Step.removePackDir]
            else []) ++ [Step.mkdirPackDir],
        .error (.workspaceNotFound m)) := by
    unfold packBlocksuite targetsOf
    simp only [hpe, Bool.false_eq_true, if_false, hres]
  have hbu : buildAndMaybeUpload root env opts
      = (([Step.ensureRepo, Step.assertClean] ++ [Step.checkLayout]
          ++ [Step.patchPublishConfig, Step.configureYarn]
          ++ (if opts.skipInstall then [] else [Step.installDeps]))
          ++ [Step.buildWorkspaces (if opts.excludeWorkspaces.isEmpty then
              DEFAULT_EXCLUDED_WORKSPACES else opts.excludeWorkspaces)]
          ++ ((if opts.clean && env.packDirState.isSome then
              [Step.removePackDir] else []) ++ [Step.mkdirPackDir]),
        .error (.workspaceNotFound m)) := by
    unfold buildAndMaybeUpload
    rw [hrc, hemp, hpkgs, hpack]
    simp
  refine ⟨m, hm, hmn, ?_, ?_, ?_, ?_, ?_⟩
  · rw [hbu]
  · rw [hbu]
    simp
  · intro nm
    rw [hbu]
    cases opts.skipInstall <;>
      cases opts.clean && env.packDirState.isSome <;> simp
  · intro p
    rw [hbu]
    cases opts.skipInstall <;>
      cases opts.clean && env.packDirState.isSome <;> simp
  · intro s
    rw [hbu]
    cases opts.skipInstall <;>
      cases opts.clean && env.packDirState.isSome <;> simp

/-- Witness for C5 (amended) at a concrete run requesting one existing and
one missing workspace. -/
theorem claim_C5_missing_package_witness :
    getBlocksuiteWorkspaces [⟨"@blocksuite/blocks", "p1"⟩] ≠ []
    ∧ (∃ n ∈ ["@blocksuite/blocks", "@blocksuite/missing"],
        wsLookup (getBlocksuiteWorkspaces [⟨"@blocksuite/blocks", "p1"⟩]) n
          = none)
    ∧ ∃ m ∈ ["@blocksuite/blocks", "@blocksuite/missing"],
        wsLookup (getBlocksuiteWorkspaces [⟨"@blocksuite/blocks", "p1"⟩]) m
          = none
        ∧ (buildAndMaybeUpload ["R"]
            ⟨true, [⟨"@blocksuite/blocks", "p1"⟩], some [], false⟩
            ⟨["dist", "blocksuite-tgz"],
              some ["@blocksuite/blocks", "@blocksuite/missing"],
              false, true, "bs", true, []⟩).2
            = .error (.workspaceNotFound m)
        ∧ Step.buildWorkspaces
            (if (([] : List String)).isEmpty then DEFAULT_EXCLUDED_WORKSPACES
              else [])
            ∈ (buildAndMaybeUpload ["R"]
              ⟨true, [⟨"@blocksuite/blocks", "p1"⟩], some [], false⟩
              ⟨["dist", "blocksuite-tgz"],
                some ["@blocksuite/blocks", "@blocksuite/missing"],
                false, true, "bs", true, []⟩).1
        ∧ (∀ nm, Step.packWorkspace nm ∉ (buildAndMaybeUpload ["R"]
              ⟨true, [⟨"@blocksuite/blocks", "p1"⟩], some [], false⟩
              ⟨["dist", "blocksuite-tgz"],
                some ["@blocksuite/blocks", "@blocksuite/missing"],
                false, true, "bs", true, []⟩).1)
        ∧ (∀ p, Step.writeOverrides p ∉ (buildAndMaybeUpload ["R"]
              ⟨true, [⟨"@blocksuite/blocks", "p1"⟩], some [], false⟩
              ⟨["dist", "blocksuite-tgz"],
                some ["@blocksuite/blocks", "@blocksuite/missing"],
                false, true, "bs", true, []⟩).1)
        ∧ (∀ s, Step.uploadArtifactStep s ∉ (buildAndMaybeUpload ["R"]
              ⟨true, [⟨"@blocksuite/blocks", "p1"⟩], some [], false⟩
              ⟨["dist", "blocksuite-tgz"],
                some ["@blocksuite/blocks", "@blocksuite/missing"],
                false, true, "bs", true, []⟩).1) :=
  ⟨by decide, by decide,
    claim_C5_missing_package ["R"]
      ⟨true, [⟨"@blocksuite/blocks", "p1"⟩], some [], false⟩
      ⟨["dist", "blocksuite-tgz"],
        some ["@blocksuite/blocks", "@blocksuite/missing"],
        false, true, "bs", true, []⟩
      ["@blocksuite/blocks", "@blocksuite/missing"]
      rfl (by decide) rfl (by decide)⟩

/-- Counterexample for C5 as stated: a run requesting the missing workspace
`@blocksuite/missing` does fail with a workspace-not-found error, but its
recorded trace contains the build step — the failure is raised only after
the workspace build has run, not before. -/
theorem claim_C5_counterexample :
    (buildAndMaybeUpload ["R"]
        ⟨true, [⟨"@blocksuite/blocks", "p1"⟩], some [], false⟩
        ⟨["dist", "blocksuite-tgz"], some ["@blocksuite/missing"],
          true, false, "bs", false, []⟩).2
      = .error (.workspaceNotFound "@blocksuite/missing")
    ∧ Step.buildWorkspaces DEFAULT_EXCLUDED_WORKSPACES
        ∈ (buildAndMaybeUpload ["R"]
          ⟨true, [⟨"@blocksuite/blocks", "p1"⟩], some [], false⟩
          ⟨["dist", "blocksuite-tgz"], some ["@blocksuite/missing"],
            true, false, "bs", false, []⟩).1 :=
  ⟨rfl, by decide⟩

/-- C8 (amended): on any successful pipeline run the override-mapping file is
written to the fixed `dist` directory under the repository root — not to the
configured output directory — and it maps every enumerated workspace name
(hence the name of every packaged workspace) to a `file:./` reference built
from the path of that workspace's archive relative to the `dist` directory. -/
theorem claim_C8_overrides_location (root : PathC) (env : Env)
    (opts : BuildOpts) (tr : List Step) (pr : PipeResult)
    (h : buildAndMaybeUpload root env opts = (tr, .ok pr)) :
    pr.overridesPath = root ++ ["dist", "blocksuite-package-overrides.json"]
    ∧ ∀ ws ∈ getBlocksuiteWorkspaces env.workspaceLines,
        (ws.name, "file:./" ++ renderRelPath
          (relativePath (root ++ ["dist"]) pr.absolutePackDir
            ++ [overridesFilename ws.name])) ∈ pr.overrides := by
  unfold buildAndMaybeUpload at h
  cases hrc : env.repoClean with
  | false => rw [hrc] at h; simp at h
  | true =>
    rw [hrc] at h
    cases hemp : (getBlocksuiteWorkspaces env.workspaceLines).isEmpty with
    | true => rw [hemp] at h; simp at h
    | false =>
      rw [hemp] at h
      rcases hp : packBlocksuite root env.workspaceLines opts.packDir
          env.packDirState opts.clean opts.packages with ⟨ps, r⟩
      rw [hp] at h
      cases r with
      | error e => simp at h
      | ok pr' =>
        simp only [Bool.not_true, Bool.false_eq_true, if_false,
          Prod.mk.injEq, Except.ok.injEq] at h
        obtain ⟨-, hpr⟩ := h
        subst hpr
        constructor
        · show (generateOverrides root env.workspaceLines
            pr'.absolutePackDir).1 = _
          unfold generateOverrides
          simp
        · intro ws hws
          show _ ∈ (generateOverrides root env.workspaceLines
            pr'.absolutePackDir).2
          unfold generateOverrides
          exact List.mem_map_of_mem _ hws

/-- Witness for C8 (amended) at a concrete successful run. -/
theorem claim_C8_overrides_location_witness :
    ∃ tr pr, buildAndMaybeUpload ["R"]
        ⟨true, [⟨"@blocksuite/blocks", "p1"⟩], some [], false⟩
        ⟨["dist", "blocksuite-tgz"], none, true, false, "bs", false, []⟩
        = (tr, .ok pr)
      ∧ (pr.overridesPath
          = ["R"] ++ ["dist", "blocksuite-package-overrides.json"]
        ∧ ∀ ws ∈ getBlocksuiteWorkspaces [⟨"@blocksuite/blocks", "p1"⟩],
            (ws.name, "file:./" ++ renderRelPath
              (relativePath (["R"] ++ ["dist"]) pr.absolutePackDir
                ++ [overridesFilename ws.name])) ∈ pr.overrides) :=
  ⟨_, _, rfl,
    claim_C8_overrides_location ["R"]
      ⟨true, [⟨"@blocksuite/blocks", "p1"⟩], some [], false⟩
      ⟨["dist", "blocksuite-tgz"], none, true, false, "bs", false, []⟩
      _ _ rfl⟩

/-- Counterexample for C8 as stated: with the default output directory
`dist/blocksuite-tgz`, the override-mapping file lands at
`dist/blocksuite-package-overrides.json` under the repository root, which is
not inside the configured output directory. -/
theorem claim_C8_counterexample :
    ((buildAndMaybeUpload ["R"]
        ⟨true, [⟨"@blocksuite/blocks", "p1"⟩], some [], false⟩
        ⟨["dist", "blocksuite-tgz"], none, true, false, "bs", false, []⟩).2.map
        fun pr => pr.overridesPath)
      = .ok ["R", "dist", "blocksuite-package-overrides.json"]
    ∧ ((buildAndMaybeUpload ["R"]
        ⟨true, [⟨"@blocksuite/blocks", "p1"⟩], some [], false⟩
        ⟨["dist", "blocksuite-tgz"], none, true, false, "bs", false, []⟩).2.map
        fun pr => pr.absolutePackDir)
      = .ok ["R", "dist", "blocksuite-tgz"]
    ∧ (["R", "dist", "blocksuite-package-overrides.json"] : PathC)
        ≠ ["R", "dist", "blocksuite-tgz"]
          ++ ["blocksuite-package-overrides.json"] :=
  ⟨rfl, rfl, by decide⟩

/-! ## The comparator (`compare-blocksuite`) -/

/-- The validated options of the comparator command (`CompareOptions`). -/
structure CompareOpts where
  version : String
  ref : Option String
  affineDir : String
  packageName : String
  packDir : String
  skipInstall : Bool
  sourceRepo : String
deriving DecidableEq, Repr

/-- The external observations one comparator run makes: the stdout of
`npm pack` and the exit code of the recursive diff. -/
structure CompareEnv where
  npmPackStdout : String
  diffExitCode : Int
deriving DecidableEq, Repr

/-- The failures the comparator raises itself. -/
inductive CompareError where
  | npmNoFilename
  | mismatch
deriving DecidableEq, Repr

/-- One externally visible action of a comparator run.  The constructors
cover everything the surrounding tooling could perform, including the upload
and publish actions the comparator must never take. -/
inductive CompareStep where
  | removeBaseDir
  | mkdirBaseDir
  | buildLocal (args : List String)
  | fetchNpm
  | extractLocal
  | extractNpm
  | runDiff
  | uploadArtifactAction
  | uploadReleaseAssetAction
  | publishAction
deriving DecidableEq, Repr

/-- `join`/`resolve` on string paths as the comparator composes them. -/
def joinPath (a b : String) : String := a ++ "/" ++ b

/-- The argument list `buildLocalTarball` passes to
`pnpm run build-blocksuite`: the build pipeline is invoked with `--clean`, an
explicit one-package subset, and without any upload flag. -/
def buildLocalArgs (root : String) (opts : CompareOpts)
    (localPackPath : String) : List String :=
  ["run", "build-blocksuite", "--",
   "--affine-dir", joinPath root opts.affineDir,
   "--ref", opts.ref.getD opts.version,
   "--pack-dir", localPackPath,
   "--clean",
   "--source-repo", opts.sourceRepo,
   "--packages", opts.packageName]
  ++ (if opts.skipInstall then ["--skip-install"] else [])

/-- Model of JavaScript `String.prototype.trim`: strip whitespace characters
from both ends. -/
def trimChars (l : List Char) : List Char :=
  ((l.dropWhile Char.isWhitespace).reverse.dropWhile Char.isWhitespace).reverse

/-- `result.stdout.trim().split("\n").pop()` in `fetchNpmTarball`, with the
JS falsiness test `if (!filename)` mapping the empty string to a failure. -/
def npmPackFilename (stdout : String) : List Char :=
  ((splitChars (fun c => c = '\n') (trimChars stdout.data)).getLast?).getD []

/-- The comparator's `main` action after option parsing: wipe and recreate
the comparison directory, build the local tarball through the build pipeline,
fetch the npm tarball, extract both, and diff the two trees; a non-zero diff
exit code is a fatal mismatch. -/
def comparatorRun (root : String) (env : CompareEnv) (opts : CompareOpts) :
    List CompareStep × Except CompareError Unit :=
  let baseDir := joinPath root opts.packDir
  let localPackDir := joinPath baseDir "local-pack"
  let t₀ := [CompareStep.removeBaseDir, CompareStep.mkdirBaseDir,
    CompareStep.buildLocal (buildLocalArgs root opts localPackDir),
    CompareStep.fetchNpm]
  let fname := npmPackFilename env.npmPackStdout
  if fname = [] then (t₀, .error .npmNoFilename)
  else
    let t₁ := t₀ ++ [CompareStep.extractLocal, CompareStep.extractNpm,
      CompareStep.runDiff]
    if env.diffExitCode ≠ 0 then (t₁, .error .mismatch)
    else (t₁, .ok ())

/-- The process exit status: the `main().catch` handler sets exit code 1 on
any error, and a run that completes exits 0. -/
def comparatorExitCode (root : String) (env : CompareEnv)
    (opts : CompareOpts) : Nat :=
  match (comparatorRun root env opts).2 with
  | .ok _ => 0
  | .error _ => 1

/-- C9: once a comparator run reaches the diff step (the npm fetch reported a
filename), a zero diff exit code makes the run succeed and exit zero, while a
non-zero diff exit code makes it fail with the mismatch error and exit
non-zero; in both cases the run performs no upload or publish action. -/
theorem claim_C9_comparator (root : String) (env : CompareEnv)
    (opts : CompareOpts)
    (hreach : npmPackFilename env.npmPackStdout ≠ []) :
    (env.diffExitCode = 0 →
      (comparatorRun root env opts).2 = .ok ()
        ∧ comparatorExitCode root env opts = 0)
    ∧ (env.diffExitCode ≠ 0 →
      (comparatorRun root env opts).2 = .error .mismatch
        ∧ comparatorExitCode root env opts = 1)
    ∧ CompareStep.uploadArtifactAction ∉ (comparatorRun root env opts).1
    ∧ CompareStep.uploadReleaseAssetAction ∉ (comparatorRun root env opts).1
    ∧ CompareStep.publishAction ∉ (comparatorRun root env opts).1 := by
  unfold comparatorRun comparatorExitCode
  by_cases hd : env.diffExitCode = 0
  · refine ⟨fun _ => ?_, fun hcontra => absurd hd hcontra, ?_, ?_, ?_⟩ <;>
      simp [comparatorRun, hreach, hd]
  · refine ⟨fun hcontra => absurd hcontra hd, fun _ => ?_, ?_, ?_, ?_⟩ <;>
      simp [comparatorRun, hreach, hd]

/-- Witness for C9 at one concrete matching run and one concrete mismatching
run. -/
theorem claim_C9_comparator_witness :
    (npmPackFilename "blocksuite-blocks-0.19.5.tgz\n" ≠ []
      ∧ ((0 : Int) = 0 →
          (comparatorRun "R" ⟨"blocksuite-blocks-0.19.5.tgz\n", 0⟩
            ⟨"v0.19.5", none, "vendor/blocksuite", "@blocksuite/blocks",
              "dist/compare-blocksuite", false,
              "https://github.com/toeverything/blocksuite.git"⟩).2 = .ok ()
          ∧ comparatorExitCode "R" ⟨"blocksuite-blocks-0.19.5.tgz\n", 0⟩
              ⟨"v0.19.5", none, "vendor/blocksuite", "@blocksuite/blocks",
                "dist/compare-blocksuite", false,
                "https://github.com/toeverything/blocksuite.git"⟩ = 0))
    ∧ (npmPackFilename "blocksuite-blocks-0.19.5.tgz\n" ≠ []
      ∧ ((1 : Int) ≠ 0 →
          (comparatorRun "R" ⟨"blocksuite-blocks-0.19.5.tgz\n", 1⟩
            ⟨"v0.19.5", none, "vendor/blocksuite", "@blocksuite/blocks",
              "dist/compare-blocksuite", false,
              "https://github.com/toeverything/blocksuite.git"⟩).2
            = .error .mismatch
          ∧ comparatorExitCode "R" ⟨"blocksuite-blocks-0.19.5.tgz\n", 1⟩
              ⟨"v0.19.5", none, "vendor/blocksuite", "@blocksuite/blocks",
                "dist/compare-blocksuite", false,
                "https://github.com/toeverything/blocksuite.git"⟩ = 1)) :=
  ⟨⟨by decide,
    (claim_C9_comparator "R" ⟨"blocksuite-blocks-0.19.5.tgz\n", 0⟩
      ⟨"v0.19.5", none, "vendor/blocksuite", "@blocksuite/blocks",
        "dist/compare-blocksuite", false,
        "https://github.com/toeverything/blocksuite.git"⟩ (by decide)).1⟩,
   ⟨by decide,
    (claim_C9_comparator "R" ⟨"blocksuite-blocks-0.19.5.tgz\n", 1⟩
      ⟨"v0.19.5", none, "vendor/blocksuite", "@blocksuite/blocks",
        "dist/compare-blocksuite", false,
        "https://github.com/toeverything/blocksuite.git"⟩ (by decide)).2.1⟩⟩

/-! ## The publish-config patch step (`patchBlocksuitePublishConfig`) -/

/-- A JSON value in a `package.json` `exports` field, to the depth the patch
step inspects it: a string, a plain object of entries, or any other value
(arrays, null, numbers, or a missing field); for the latter the step only
ever needs its JS truthiness, carried here explicitly. -/
inductive ExVal where
  | str (s : String)
  | record (entries : List (String × ExVal))
  | otherVal (truthy : Bool)

/-- JS truthiness of an exports value: the empty string is falsy, objects are
truthy, opaque values carry their own truthiness. -/
def exTruthy : ExVal → Bool
  | .str s => if s = "" then false else true
  | .record _ => true
  | .otherVal t => t

/-- Model of JavaScript `String.prototype.endsWith`: a suffix test on the
character sequence. -/
def strEndsWith (s p : String) : Bool :=
  p.data.isSuffixOf s.data

/-- `convertSrcExport`: a target not under `./src/` is left alone
(`undefined`); otherwise the leading `./src/` becomes `./dist/` (the regex
`^\.\/src\//` replacement), a trailing `.tsx` or `.ts` is stripped (the regex
`\.tsx?$` replacement), and the target becomes a types/import object. -/
def convertSrcExport (target : String) : Option ExVal :=
  if strStartsWith target "./src/" then
    let rest := String.mk (target.data.drop 6)
    let distBase0 := "./dist/" ++ rest
    let distBase :=
      if strEndsWith distBase0 ".tsx" then
        String.mk (distBase0.data.take (distBase0.data.length - 4))
      else if strEndsWith distBase0 ".ts" then
        String.mk (distBase0.data.take (distBase0.data.length - 3))
      else distBase0
    some (.record [("types", .str (distBase ++ ".d.ts")),
                   ("import", .str (distBase ++ ".js"))])
  else none

/-- `rewriteExportsField`: rewrite string targets at the top level, one level
inside a record, and one further level inside a nested record; everything
else passes through unchanged. -/
def rewriteExportsField (exportsField : ExVal) : ExVal :=
  match exportsField with
  | .str s => (convertSrcExport s).getD (.str s)
  | .record entries =>
    .record (entries.map fun e =>
      match e.2 with
      | .str s => (e.1, (convertSrcExport s).getD (.str s))
      | .record nested =>
        (e.1, .record (nested.map fun ne =>
          match ne.2 with
          | .str s => (ne.1, (convertSrcExport s).getD (.str s))
          | nv => (ne.1, nv)))
      | v => (e.1, v))
  | v => v

/-- Whether `rewriteExportsField(e) === e` is false in JavaScript: a string
result is identical (strings compare by value) exactly when no conversion
applied; a record result is a fresh object from `Object.fromEntries`, never
identical; any other value is returned as the very same reference. -/
def rewriteChangedExports : ExVal → Bool
  | .str s => (convertSrcExport s).isSome
  | .record _ => true
  | .otherVal _ => false

/-- The slice of a workspace `package.json` the patch step reads and writes:
the `exports` field and the `publishConfig.exports` field (`none` when the
`publishConfig` object or its `exports` entry is absent; the spread preserves
the other `publishConfig` entries, which the step never reads). -/
structure PkgJson where
  exports : ExVal
  publishConfigExports : Option ExVal

/-- `Boolean(packageJson.publishConfig?.exports)`. -/
def pkgAlreadyPatched (pkg : PkgJson) : Bool :=
  match pkg.publishConfigExports with
  | some v => exTruthy v
  | none => false

/-- The patch step's handling of one workspace `package.json`: skip when
`publishConfig.exports` is already present (truthy); skip when the rewrite
returns the exports field itself (no src-based exports); otherwise store the
rewritten exports under `publishConfig.exports` and write the file. -/
def patchWorkspacePackage (pkg : PkgJson) : PkgJson :=
  if pkgAlreadyPatched pkg then pkg
  else if rewriteChangedExports pkg.exports then
    { pkg with publishConfigExports := some (rewriteExportsField pkg.exports) }
  else pkg

/-- `patchBlocksuitePublishConfig` over the enumerated workspaces'
package.json files (the empty-list short circuit patches nothing, exactly as
the map does). -/
def patchBlocksuitePublishConfig (pkgs : List PkgJson) : List PkgJson :=
  pkgs.map patchWorkspacePackage

theorem convertSrcExport_truthy {s : String} {v : ExVal}
    (h : convertSrcExport s = some v) : exTruthy v = true := by
  unfold convertSrcExport at h
  split at h
  · simp only [Option.some.injEq] at h
    rw [← h]
    rfl
  · exact Option.noConfusion h

theorem rewriteExportsField_truthy {e : ExVal}
    (h : rewriteChangedExports e = true) :
    exTruthy (rewriteExportsField e) = true := by
  cases e with
  | str s =>
    rw [rewriteChangedExports] at h
    obtain ⟨v, hv⟩ := Option.isSome_iff_exists.mp h
    rw [rewriteExportsField, hv]
    exact convertSrcExport_truthy hv
  | record entries => rfl
  | otherVal t => exact Bool.noConfusion h

theorem patchWorkspacePackage_idem (pkg : PkgJson) :
    patchWorkspacePackage (patchWorkspacePackage pkg)
      = patchWorkspacePackage pkg := by
  cases ha : pkgAlreadyPatched pkg with
  | true => simp [patchWorkspacePackage, ha]
  | false =>
    cases hc : rewriteChangedExports pkg.exports with
    | false => simp [patchWorkspacePackage, ha, hc]
    | true =>
      have h1 : patchWorkspacePackage pkg
          = { pkg with publishConfigExports := some (rewriteExportsField pkg.exports) } := by
        simp [patchWorkspacePackage, ha, hc]
      rw [h1]
      have h2 : pkgAlreadyPatched
          { pkg with publishConfigExports := some (rewriteExportsField pkg.exports) } = true := by
        rw [pkgAlreadyPatched]
        exact rewriteExportsField_truthy hc
      simp [patchWorkspacePackage, h2]

/-- C10: the patch step leaves unchanged every workspace whose package.json
already contains a (truthy) `publishConfig.exports`, and it is idempotent:
running it a second time over the checkout the first run produced modifies no
package.json. -/
theorem claim_C10_patch_idempotent (pkg : PkgJson) (pkgs : List PkgJson)
    (hp : pkgAlreadyPatched pkg = true) :
    patchWorkspacePackage pkg = pkg
    ∧ patchBlocksuitePublishConfig (patchBlocksuitePublishConfig pkgs)
        = patchBlocksuitePublishConfig pkgs := by
  constructor
  · simp [patchWorkspacePackage, hp]
  · unfold patchBlocksuitePublishConfig
    rw [List.map_map]
    apply List.map_congr_left
    intro q _
    exact patchWorkspacePackage_idem q

/-- Witness for C10 at a concrete already-patched package.json and a concrete
checkout. -/
theorem claim_C10_patch_idempotent_witness :
    pkgAlreadyPatched ⟨ExVal.str "./src/index.ts",
        some (ExVal.record [("types", ExVal.str "./dist/index.d.ts")])⟩ = true
    ∧ (patchWorkspacePackage ⟨ExVal.str "./src/index.ts",
        some (ExVal.record [("types", ExVal.str "./dist/index.d.ts")])⟩
        = ⟨ExVal.str "./src/index.ts",
            some (ExVal.record [("types", ExVal.str "./dist/index.d.ts")])⟩
      ∧ patchBlocksuitePublishConfig (patchBlocksuitePublishConfig
          [⟨ExVal.record [(".", ExVal.str "./src/index.ts")], none⟩,
           ⟨ExVal.str "./index.js", none⟩])
        = patchBlocksuitePublishConfig
          [⟨ExVal.record [(".", ExVal.str "./src/index.ts")], none⟩,
           ⟨ExVal.str "./index.js", none⟩]) :=
  ⟨rfl, claim_C10_patch_idempotent
    ⟨ExVal.str "./src/index.ts",
      some (ExVal.record [("types", ExVal.str "./dist/index.d.ts")])⟩
    [⟨ExVal.record [(".", ExVal.str "./src/index.ts")], none⟩,
     ⟨ExVal.str "./index.js", none⟩] rfl⟩

end BlocksuiteBuild
